import Mathlib

/-!
Verification development for the insight-engine pipeline
(backend/engine/{ingest,metrics,insights}.py and backend/core/config.py).

Modelling conventions (shallow embedding):
* Python floats are modelled as exact rationals (ℚ); Python `round(x, n)`
  is round-half-to-even on `x * 10^n` divided back.
* Polars dataframes are modelled as a header (column names) plus row-major
  cell lists (`Table`).  Dates are modelled as integer day numbers.
* Fallible Python code (raising) is modelled with `Except`.
-/

/-- A single dataframe cell: string, numeric (Float64/Int64 modelled as ℚ),
date (day number) or null (missing value produced by outer joins). -/
inductive Cell
  | str (s : String)
  | num (q : ℚ)
  | date (d : ℤ)
  | null
deriving DecidableEq, Repr

/-- Numeric view of a cell, used where polars sums a numeric column
(non-numeric cells do not occur in metric columns). -/
def Cell.toQ : Cell → ℚ
  | Cell.num q => q
  | _ => 0

/-- Cast of a cell to Float64 (`.cast(pl.Float64)`); fails on non-numeric
cells. -/
def Cell.castF : Cell → Option ℚ
  | Cell.num q => some q
  | _ => none

/-- An in-memory columnar table: ordered column names plus row-major rows. -/
structure Table where
  header : List String
  rows : List (List Cell)
deriving DecidableEq, Repr

/-- Well-formedness: every row has exactly one cell per header entry. -/
def Table.WF (t : Table) : Prop :=
  ∀ r ∈ t.rows, r.length = t.header.length

instance (t : Table) : Decidable t.WF := by
  unfold Table.WF; infer_instance

/-- The cell of row `r` in column `c` of a table with header `hd`. -/
def cellAt (hd : List String) (r : List Cell) (c : String) : Cell :=
  r.getD (hd.indexOf c) Cell.null

/-- All cells of column `c`, top to bottom. -/
def Table.colCells (t : Table) (c : String) : List Cell :=
  t.rows.map (fun r => cellAt t.header r c)

/-- `with_columns` with a single aliased expression: replaces the column when
the alias already names a column, otherwise appends it on the right. -/
def Table.withColumn (t : Table) (name : String) (vals : List Cell) : Table :=
  if name ∈ t.header then
    ⟨t.header, (t.rows.zip vals).map (fun rv => rv.1.set (t.header.indexOf name) rv.2)⟩
  else
    ⟨t.header ++ [name], (t.rows.zip vals).map (fun rv => rv.1 ++ [rv.2])⟩

/-! ### Source loader (backend/engine/ingest.py) -/

/-- Delimiter auto-detection inlined in `load_csv_source`
(ingest.py lines 61-71): count semicolons, commas and tabs in the header
line; semicolon wins when strictly above both others, then tab when strictly
above both others, otherwise the comma default stands. -/
def detect_delimiter (first_line : String) : Char :=
  let semicolon_count := first_line.toList.count ';'
  let comma_count := first_line.toList.count ','
  let tab_count := first_line.toList.count '\t'
  if semicolon_count > comma_count ∧ semicolon_count > tab_count then ';'
  else if tab_count > comma_count ∧ tab_count > semicolon_count then '\t'
  else ','

/-- Database-connection details of a source (backend/core/config.py,
`SourceConfig`); only the fields the embedded operations read are kept. -/
structure SourceConfig where
  path : Option String
  table : String
  date_col : String
  dimensions : List String
  metrics : List String
  join_key : Option (List String)
deriving DecidableEq, Repr

/-- Column list synthesized in `load_database_source`
(ingest.py lines 158-168): dimensions, then metrics, appended without
deduplication; then the date column and each join key, each appended only
when not already present.  Empty lists and an empty date string are falsy
in Python and contribute nothing. -/
def build_columns (sc : SourceConfig) : List String :=
  let cols : List String := []
  let cols := if ¬ sc.dimensions.isEmpty then cols ++ sc.dimensions else cols
  let cols := if ¬ sc.metrics.isEmpty then cols ++ sc.metrics else cols
  let cols := if sc.date_col ≠ "" ∧ sc.date_col ∉ cols then cols ++ [sc.date_col] else cols
  match sc.join_key with
  | none => cols
  | some keys => keys.foldl (fun acc k => if k ∉ acc then acc ++ [k] else acc) cols

/-- Double-quote an SQL identifier. -/
def quoteIdent (c : String) : String := "\"" ++ c ++ "\""

/-- Query synthesized in `load_database_source` (ingest.py lines 170-174):
explicit column list when any columns were collected, `SELECT *` otherwise. -/
def build_database_query (sc : SourceConfig) : String :=
  let columns := build_columns sc
  if ¬ columns.isEmpty then
    "SELECT " ++ String.intercalate ", " (columns.map quoteIdent)
      ++ " FROM " ++ quoteIdent sc.table
  else
    "SELECT * FROM " ++ quoteIdent sc.table

/-! ### Metric derivation (backend/engine/metrics.py) -/

/-- Word characters of the regex class `\w` (ASCII view). -/
def isWordChar (c : Char) : Bool := c.isAlphanum || c = '_'

/-- `parse_formula` (metrics.py lines 24-46): match the anchored regex
pattern of spaces, a word, spaces, one of `+ - * /`, spaces, a word, spaces.
The character classes are pairwise disjoint, so greedy matching is the
unique match. -/
def parse_formula (formula : String) : Option (String × Char × String) :=
  let cs0 := formula.toList.dropWhile Char.isWhitespace
  let op1 := cs0.takeWhile isWordChar
  let cs1 := (cs0.dropWhile isWordChar).dropWhile Char.isWhitespace
  if op1.isEmpty then none
  else
    match cs1 with
    | [] => none
    | op :: rest =>
      if op = '+' ∨ op = '-' ∨ op = '*' ∨ op = '/' then
        let rest0 := rest.dropWhile Char.isWhitespace
        let op2 := rest0.takeWhile isWordChar
        let rest1 := (rest0.dropWhile isWordChar).dropWhile Char.isWhitespace
        if op2.isEmpty then none
        else if rest1.isEmpty then some (String.mk op1, op, String.mk op2)
        else none
      else none

/-- Element-wise evaluation of one formula operator (metrics.py lines
80-90); division clamps a zero divisor to 0.0 via
`pl.when(col2 != 0).then(col1 / col2).otherwise(0.0)`. -/
def applyOp (op : Char) (a b : ℚ) : ℚ :=
  if op = '+' then a + b
  else if op = '-' then a - b
  else if op = '*' then a * b
  else if b = 0 then 0 else a / b

/-- Errors raised by `compute_derived_metric`. -/
inductive MetricError
  | formulaError (formula : String)
  | columnNotFound (col formula : String)
  | castError
deriving DecidableEq, Repr

/-- Column of element-wise results: cast both operand cells of every row to
Float64 and apply the operator; fails if any cast fails. -/
def computeCells (op : Char) (i1 i2 : ℕ) : List (List Cell) → Option (List ℚ)
  | [] => some []
  | r :: rs =>
    (Cell.castF (r.getD i1 Cell.null)).bind (fun a =>
      (Cell.castF (r.getD i2 Cell.null)).bind (fun b =>
        (computeCells op i1 i2 rs).map (fun qs => applyOp op a b :: qs)))

/-- `compute_derived_metric` (metrics.py lines 49-96): parse the formula,
check both operand columns exist, evaluate element-wise with Float64
promotion and attach the result under `metric_name`. -/
def compute_derived_metric (df : Table) (metric_name formula : String) :
    Except MetricError Table :=
  match parse_formula formula with
  | none => Except.error (MetricError.formulaError formula)
  | some (operand1, operator, operand2) =>
    if operand1 ∉ df.header then
      Except.error (MetricError.columnNotFound operand1 formula)
    else if operand2 ∉ df.header then
      Except.error (MetricError.columnNotFound operand2 formula)
    else
      match computeCells operator (df.header.indexOf operand1)
          (df.header.indexOf operand2) df.rows with
      | none => Except.error MetricError.castError
      | some qs => Except.ok (df.withColumn metric_name (qs.map Cell.num))

/-! ### Period splitter and aggregator (backend/engine/metrics.py) -/

/-- Date-range test of the filter expressions in `split_by_period`
(metrics.py lines 195-204): the row's date cell lies in the inclusive
interval. -/
def rowDateIn (hd : List String) (date_col : String) (lo hi : ℤ)
    (r : List Cell) : Bool :=
  match cellAt hd r date_col with
  | Cell.date d => lo ≤ d ∧ d ≤ hi
  | _ => false

/-- `split_by_period` (metrics.py lines 169-208).  The four bounds come from
`config.report.comparison`, parsed by `strptime "%Y-%m-%d"`; dates are
modelled as day numbers.  Each period keeps exactly the rows whose date lies
in its inclusive interval. -/
def split_by_period (df : Table) (date_col : String)
    (current_start current_end previous_start previous_end : ℤ) :
    Table × Table :=
  (⟨df.header, df.rows.filter (rowDateIn df.header date_col current_start current_end)⟩,
   ⟨df.header, df.rows.filter (rowDateIn df.header date_col previous_start previous_end)⟩)

/-- Errors raised by `aggregate_by_dimensions`. -/
inductive AggError
  | missingColumn (names : List String)
  | noValidMetrics
deriving DecidableEq, Repr

/-- Sum of a metric column (`pl.col(m).sum()`), over numeric cells. -/
def Table.colSum (t : Table) (m : String) : ℚ :=
  ((t.colCells m).map Cell.toQ).sum

/-- Distinct group keys in first-occurrence order (polars leaves group order
unspecified; first occurrence is the deterministic choice taken here). -/
def distinctKeys (l : List (List Cell)) : List (List Cell) :=
  l.foldl (fun acc k => if k ∈ acc then acc else acc ++ [k]) []

/-- `aggregate_by_dimensions` (metrics.py lines 211-250).  With no
dimensions it selects the sums of the requested metrics that exist
(`df.select` of an empty expression list yields an empty frame, no error).
With dimensions it first fails on missing dimension columns, then fails
with `noValidMetrics` when no requested metric exists, otherwise groups by
the dimension key and sums each surviving metric within the group. -/
def aggregate_by_dimensions (df : Table) (dimensions metrics : List String) :
    Except AggError Table :=
  if dimensions.isEmpty then
    let valid := metrics.filter (fun m => decide (m ∈ df.header))
    Except.ok ⟨valid, if valid.isEmpty then [] else [valid.map (fun m => Cell.num (df.colSum m))]⟩
  else
    let missing_dims := dimensions.filter (fun d => decide (d ∉ df.header))
    if ¬ missing_dims.isEmpty then Except.error (AggError.missingColumn missing_dims)
    else
      let valid := metrics.filter (fun m => decide (m ∈ df.header))
      if valid.isEmpty then Except.error AggError.noValidMetrics
      else
        let keyOf := fun (r : List Cell) => dimensions.map (cellAt df.header r)
        let keys := distinctKeys (df.rows.map keyOf)
        let outRows := keys.map (fun k =>
          let group := df.rows.filter (fun r => decide (keyOf r = k))
          k ++ valid.map (fun m =>
            Cell.num ((group.map (fun r => Cell.toQ (cellAt df.header r m))).sum)))
        Except.ok ⟨dimensions ++ valid, outRows⟩

/-! ### Insight engine (backend/engine/insights.py) -/

/-- `compute_delta` (insights.py lines 52-63). -/
def compute_delta (current previous : ℚ) : ℚ := current - previous

/-- `compute_delta_pct` (insights.py lines 66-82). -/
def compute_delta_pct (current previous : ℚ) : ℚ :=
  if previous = 0 then
    if current = 0 then 0
    else if current > 0 then 100 else -100
  else ((current - previous) / |previous|) * 100

/-- Python `round` to an integer: round half to even (banker's rounding). -/
def roundHalfEven (q : ℚ) : ℤ :=
  let f := ⌊q⌋
  let frac := q - (f : ℚ)
  if frac < 1/2 then f
  else if 1/2 < frac then f + 1
  else if f % 2 = 0 then f else f + 1

/-- Python `round(x, 4)`. -/
def round4 (q : ℚ) : ℚ := (roundHalfEven (q * 10000) : ℚ) / 10000

/-- `compute_impact_score` (insights.py lines 85-118): percentage factor
clamped at 200% and normalised to [0,1], priority weight
`(total - priority) / total`, multiplied onto `|delta|` and rounded to four
decimals. -/
def compute_impact_score (delta delta_pct : ℚ)
    (metric_priority total_metrics : ℕ) : ℚ :=
  let pct_factor := min |delta_pct| 200 / 200
  let priority_weight := ((total_metrics : ℚ) - (metric_priority : ℚ)) / (total_metrics : ℚ)
  let raw_score := |delta| * (1 + pct_factor) * (1 + priority_weight)
  round4 raw_score

/-- `InsightRecord` (insights.py lines 23-49). -/
structure InsightRecord where
  dimensions : List (String × Cell)
  metric : String
  current_value : ℚ
  previous_value : ℚ
  delta : ℚ
  delta_pct : ℚ
  impact_score : ℚ
  direction : String
deriving DecidableEq, Repr

/-- Stable insertion into a list sorted by descending impact score: the new
record goes after every strictly-greater record and before ties that sort
later, matching Python's stable `sorted(..., reverse=True)`. -/
def insertDesc (x : InsightRecord) : List InsightRecord → List InsightRecord
  | [] => [x]
  | y :: ys =>
    if x.impact_score < y.impact_score then y :: insertDesc x ys
    else x :: y :: ys

/-- Stable sort by impact score, descending (Python `sorted` with
`reverse=True` keeps ties in original order). -/
def sortDesc : List InsightRecord → List InsightRecord
  | [] => []
  | x :: xs => insertDesc x (sortDesc xs)

/-- `rank_insights` (insights.py lines 235-262): keep records whose impact
score reaches `min_impact`, stable-sort descending by impact score, and
truncate to `top_n` only when `top_n` is truthy (not `None` and nonzero). -/
def rank_insights (insights : List InsightRecord) (top_n : Option ℕ)
    (min_impact : ℚ) : List InsightRecord :=
  let filtered := insights.filter (fun i => decide (min_impact ≤ i.impact_score))
  let ranked := sortDesc filtered
  match top_n with
  | none => ranked
  | some n => if n = 0 then ranked else ranked.take n

/-! ### Source joiner (backend/engine/ingest.py) -/

/-- Report section of the configuration (backend/core/config.py). -/
structure ReportConfig where
  primary_date_col : String
  primary_dims : List String
  kpi_priority : List String
deriving Repr

/-- Dataset section of the configuration (backend/core/config.py); the
sources mapping keeps insertion order. -/
structure DatasetConfig where
  primary_source : String
  sources : List (String × SourceConfig)
deriving Repr

/-- Configuration fields consumed by the join stage
(backend/core/config.py, `InsightConfig`). -/
structure InsightConfig where
  dataset : DatasetConfig
  derived_metrics : List (String × String)
  report : ReportConfig
deriving Repr

/-- Keep only the named columns, in the given order (`df.select`). -/
def Table.selectCols (t : Table) (cols : List String) : Table :=
  ⟨cols, t.rows.map (fun r => cols.map (cellAt t.header r))⟩

/-- Left join on the given key columns (`df.join(..., how="left")`): every
left row is paired with each matching right row, right key columns are
dropped, and an unmatched left row keeps nulls on the right. -/
def leftJoin (l r : Table) (keys : List String) : Table :=
  let rNonKey := r.header.filter (fun c => decide (c ∉ keys))
  let joinedRows := l.rows.flatMap (fun lr =>
    let ms := r.rows.filter (fun rr =>
      decide (∀ k ∈ keys, cellAt l.header lr k = cellAt r.header rr k))
    if ms.isEmpty then [lr ++ rNonKey.map (fun _ => Cell.null)]
    else ms.map (fun rr => lr ++ rNonKey.map (cellAt r.header rr)))
  ⟨l.header ++ rNonKey, joinedRows⟩

/-- Join keys used by both join strategies (ingest.py lines 297-300 and
376-380): the primary dimensions plus the primary source's date column when
absent from them. -/
def joinKeys (cfg : InsightConfig) : List String :=
  let dims := cfg.report.primary_dims
  let date_col :=
    ((cfg.dataset.sources.lookup cfg.dataset.primary_source).map
      SourceConfig.date_col).getD ""
  if date_col ∈ dims then dims else dims ++ [date_col]

/-- `join_sources_polars` (ingest.py lines 352-399): a single source passes
through; otherwise start from the primary table and left-join every other
source on the join keys common to both sides, skipping sources that share
none. -/
def join_sources_polars (sources : List (String × Table))
    (cfg : InsightConfig) : Table :=
  if sources.length = 1 then ((sources.headD ("", ⟨[], []⟩)).2)
  else
    let primary_name := cfg.dataset.primary_source
    let start := (sources.lookup primary_name).getD ⟨[], []⟩
    let keys := joinKeys cfg
    sources.foldl (fun result nd =>
      if nd.1 = primary_name then result
      else
        let df := nd.2
        let common_keys := keys.filter (fun k =>
          decide (k ∈ df.header ∧ k ∈ result.header))
        if common_keys.isEmpty then result
        else
          let right_cols := df.header.filter (fun c =>
            decide (c ∉ result.header ∨ c ∈ common_keys))
          leftJoin result (df.selectCols right_cols) common_keys) start

/-- The embedded analytical engine (DuckDB) used by the primary join
strategy is an external system; its multi-table execution (ingest.py lines
283-349) is a parameter of the embedding. -/
structure DuckDBEngine where
  run : List (String × Table) → InsightConfig → Except String Table

/-- `join_sources_duckdb` (ingest.py lines 255-349): a single source is
returned unchanged before any engine work; otherwise the registered tables
are joined by the external engine, which may fail. -/
def join_sources_duckdb (duck : DuckDBEngine)
    (sources : List (String × Table)) (cfg : InsightConfig) :
    Except String Table :=
  if sources.length = 1 then
    Except.ok ((sources.headD ("", ⟨[], []⟩)).2)
  else duck.run sources cfg

/-- `join_sources` (ingest.py lines 402-424): DuckDB strategy first, Polars
fallback on failure. -/
def join_sources (duck : DuckDBEngine) (sources : List (String × Table))
    (cfg : InsightConfig) : Table :=
  match join_sources_duckdb duck sources cfg with
  | Except.ok t => t
  | Except.error _ => join_sources_polars sources cfg

/-! ## Helper lemmas -/

lemma applyOp_div (a b : ℚ) : applyOp '/' a b = if b = 0 then 0 else a / b := by
  unfold applyOp
  rw [if_neg (by decide), if_neg (by decide), if_neg (by decide)]

lemma mem_insertDesc {x y : InsightRecord} {l : List InsightRecord} :
    y ∈ insertDesc x l ↔ y = x ∨ y ∈ l := by
  induction l with
  | nil => simp [insertDesc]
  | cons z zs ih =>
    unfold insertDesc
    split_ifs with h
    · simp only [List.mem_cons, ih]
      tauto
    · simp [List.mem_cons]

lemma insertDesc_pairwise {x : InsightRecord} {l : List InsightRecord}
    (h : l.Pairwise (fun a b => b.impact_score ≤ a.impact_score)) :
    (insertDesc x l).Pairwise (fun a b => b.impact_score ≤ a.impact_score) := by
  induction l with
  | nil => simp [insertDesc]
  | cons z zs ih =>
    rcases List.pairwise_cons.mp h with ⟨hz, hzs⟩
    unfold insertDesc
    split_ifs with hlt
    · refine List.pairwise_cons.mpr ⟨?_, ih hzs⟩
      intro w hw
      rcases mem_insertDesc.mp hw with rfl | hw2
      · exact le_of_lt hlt
      · exact hz w hw2
    · refine List.pairwise_cons.mpr ⟨?_, h⟩
      intro w hw
      rcases List.mem_cons.mp hw with rfl | hw2
      · exact not_lt.mp hlt
      · exact le_trans (hz w hw2) (not_lt.mp hlt)

lemma sortDesc_pairwise (l : List InsightRecord) :
    (sortDesc l).Pairwise (fun a b => b.impact_score ≤ a.impact_score) := by
  induction l with
  | nil => simp [sortDesc]
  | cons x xs ih => exact insertDesc_pairwise ih

lemma mem_sortDesc {y : InsightRecord} {l : List InsightRecord} :
    y ∈ sortDesc l ↔ y ∈ l := by
  induction l with
  | nil => simp [sortDesc]
  | cons x xs ih =>
    show y ∈ insertDesc x (sortDesc xs) ↔ _
    rw [mem_insertDesc, ih]
    simp [eq_comm]

lemma sortDesc_of_pairwise {l : List InsightRecord}
    (h : l.Pairwise (fun a b => b.impact_score ≤ a.impact_score)) :
    sortDesc l = l := by
  induction l with
  | nil => rfl
  | cons x xs ih =>
    rcases List.pairwise_cons.mp h with ⟨hx, hxs⟩
    show insertDesc x (sortDesc xs) = x :: xs
    rw [ih hxs]
    cases xs with
    | nil => rfl
    | cons y ys =>
      show insertDesc x (y :: ys) = x :: y :: ys
      unfold insertDesc
      rw [if_neg (not_lt.mpr (hx y (List.mem_cons_self y ys)))]

lemma insertDesc_length (x : InsightRecord) (l : List InsightRecord) :
    (insertDesc x l).length = l.length + 1 := by
  induction l with
  | nil => rfl
  | cons z zs ih =>
    unfold insertDesc
    split_ifs with h
    · simp [ih]
    · simp

lemma sortDesc_length (l : List InsightRecord) :
    (sortDesc l).length = l.length := by
  induction l with
  | nil => rfl
  | cons x xs ih =>
    show (insertDesc x (sortDesc xs)).length = xs.length + 1
    rw [insertDesc_length, ih]

/-! ## Claim theorems -/

/-- C5: `compute_delta_pct` returns 0 on equal arguments; against a zero
previous value it returns 0 for zero current and sign(current) * 100
otherwise; for nonzero previous it is ((current - previous) / |previous|)
* 100. -/
theorem compute_delta_pct_spec :
    (∀ x : ℚ, compute_delta_pct x x = 0) ∧
    (∀ x : ℚ, x ≠ 0 → compute_delta_pct x 0 = (if 0 < x then 1 else -1) * 100) ∧
    (∀ current previous : ℚ, previous ≠ 0 →
      compute_delta_pct current previous =
        ((current - previous) / |previous|) * 100) := by
  refine ⟨?_, ?_, ?_⟩
  · intro x
    by_cases hx : x = 0
    · subst hx; simp [compute_delta_pct]
    · simp [compute_delta_pct, hx]
  · intro x hx
    by_cases hpos : 0 < x
    · simp [compute_delta_pct, hx, hpos]
    · simp [compute_delta_pct, hx, hpos]
  · intro c p hp
    simp [compute_delta_pct, hp]

/-- Witness for C5 at concrete inputs. -/
theorem compute_delta_pct_spec_witness :
    compute_delta_pct 5 5 = 0 ∧ compute_delta_pct (-3) 0 = -100 ∧
    compute_delta_pct 3 2 = 50 := by
  refine ⟨compute_delta_pct_spec.1 5, ?_, ?_⟩
  · have h := compute_delta_pct_spec.2.1 (-3) (by norm_num)
    rw [h]; norm_num
  · have h := compute_delta_pct_spec.2.2 3 2 (by norm_num)
    rw [h]; norm_num

/-- C9: joining a sources mapping that contains exactly one table returns
that table unchanged for every configuration and every external engine:
both the DuckDB strategy and the Polars fallback short-circuit before any
join work. -/
theorem join_sources_single (duck : DuckDBEngine) (name : String) (t : Table)
    (cfg : InsightConfig) :
    join_sources duck [(name, t)] cfg = t ∧
    join_sources_duckdb duck [(name, t)] cfg = Except.ok t ∧
    join_sources_polars [(name, t)] cfg = t := by
  exact ⟨rfl, rfl, rfl⟩

/-- C7: ranking is idempotent — ranking the output of `rank_insights` again
with the same `top_n` and `min_impact` returns that output unchanged. -/
theorem rank_insights_idempotent (l : List InsightRecord) (top_n : Option ℕ)
    (min_impact : ℚ) :
    rank_insights (rank_insights l top_n min_impact) top_n min_impact =
      rank_insights l top_n min_impact := by
  have hmemf : ∀ x ∈ sortDesc (l.filter (fun i => decide (min_impact ≤ i.impact_score))),
      min_impact ≤ x.impact_score := by
    intro x hx
    have hx2 := mem_sortDesc.mp hx
    exact of_decide_eq_true (List.mem_filter.mp hx2).2
  have hsorted := sortDesc_pairwise (l.filter (fun i => decide (min_impact ≤ i.impact_score)))
  have fix : ∀ out : List InsightRecord,
      (∀ x ∈ out, min_impact ≤ x.impact_score) →
      out.Pairwise (fun a b => b.impact_score ≤ a.impact_score) →
      out.filter (fun i => decide (min_impact ≤ i.impact_score)) = out ∧
        sortDesc out = out := by
    intro out h1 h2
    exact ⟨List.filter_eq_self.mpr (fun x hx => decide_eq_true (h1 x hx)),
      sortDesc_of_pairwise h2⟩
  cases top_n with
  | none =>
    have h := fix _ hmemf hsorted
    simp only [rank_insights]
    rw [h.1, h.2]
  | some n =>
    by_cases hn : n = 0
    · subst hn
      have h := fix _ hmemf hsorted
      simp only [rank_insights, if_true]
      rw [h.1, h.2]
    · have hmem2 : ∀ x ∈ (sortDesc (l.filter (fun i => decide (min_impact ≤ i.impact_score)))).take n,
          min_impact ≤ x.impact_score :=
        fun x hx => hmemf x (List.take_subset n _ hx)
      have hsorted2 := hsorted.sublist (List.take_sublist n _)
      have h := fix _ hmem2 hsorted2
      simp only [rank_insights, hn, if_false]
      rw [h.1, h.2, List.take_take, min_self]

/-- C10: a `top_n` of 0 is falsy in Python, so no truncation happens: the
result is the ranking with unspecified `top_n` and has the full filtered
length; truncation happens only for a nonzero `top_n`. -/
theorem rank_insights_top_n_zero (l : List InsightRecord) (min_impact : ℚ) :
    rank_insights l (some 0) min_impact = rank_insights l none min_impact ∧
    (rank_insights l (some 0) min_impact).length =
      (l.filter (fun i => decide (min_impact ≤ i.impact_score))).length ∧
    (∀ n : ℕ, n ≠ 0 →
      rank_insights l (some n) min_impact =
        (rank_insights l none min_impact).take n) := by
  refine ⟨by simp [rank_insights], ?_, ?_⟩
  · simp [rank_insights, sortDesc_length]
  · intro n hn
    simp [rank_insights, hn]

/-- Witness for C10: a nonzero `top_n` truncates. -/
theorem rank_insights_top_n_zero_witness :
    rank_insights [] (some 1) 0 = (rank_insights [] none 0).take 1 :=
  (rank_insights_top_n_zero [] 0).2.2 1 (by decide)

/-- C2 counterexample: in the header line ";;\t\t" semicolon and tab tie at
two occurrences each while comma has zero, yet the comma default is chosen,
so a character that is not maximal in count can be chosen. -/
theorem detect_delimiter_cex :
    detect_delimiter ";;\t\t" = ',' ∧
    (";;\t\t".toList.count ',') < (";;\t\t".toList.count ';') := by
  exact ⟨rfl, by decide⟩

/-- C2 amended: semicolon is chosen iff it strictly outnumbers both comma
and tab in the header line; tab is chosen iff it strictly outnumbers both
comma and semicolon; in every other case (including ties between semicolon
and tab above comma) the comma default is chosen even if not maximal. -/
theorem detect_delimiter_spec (line : String) :
    (detect_delimiter line = ';' ↔
      line.toList.count ';' > line.toList.count ',' ∧
      line.toList.count ';' > line.toList.count '\t') ∧
    (detect_delimiter line = '\t' ↔
      line.toList.count '\t' > line.toList.count ',' ∧
      line.toList.count '\t' > line.toList.count ';') ∧
    (¬ (line.toList.count ';' > line.toList.count ',' ∧
        line.toList.count ';' > line.toList.count '\t') →
      ¬ (line.toList.count '\t' > line.toList.count ',' ∧
         line.toList.count '\t' > line.toList.count ';') →
      detect_delimiter line = ',') := by
  dsimp only [detect_delimiter]
  split_ifs with h1 h2
  · refine ⟨by simp only [String.toList] at h1; simp [h1], ?_, ?_⟩
    · constructor
      · intro h; exact absurd h (by decide)
      · rintro ⟨a, b⟩; omega
    · intro hna hnb; exact absurd h1 hna
  · refine ⟨?_, by simp only [String.toList] at h2; simp [h2], ?_⟩
    · constructor
      · intro h; exact absurd h (by decide)
      · rintro ⟨a, b⟩; omega
    · intro hna hnb; exact absurd h2 hnb
  · refine ⟨?_, ?_, fun _ _ => rfl⟩
    · constructor
      · intro h; exact absurd h (by decide)
      · intro hc; exact absurd hc h1
    · constructor
      · intro h; exact absurd h (by decide)
      · intro hc; exact absurd hc h2

/-- Witness for C2 amended: a strict semicolon majority selects semicolon,
and the plain comma case selects comma. -/
theorem detect_delimiter_spec_witness :
    detect_delimiter "a;b;c" = ';' ∧ detect_delimiter "a,b" = ',' :=
  ⟨(detect_delimiter_spec "a;b;c").1.mpr (by decide),
   (detect_delimiter_spec "a,b").2.2 (by decide) (by decide)⟩

lemma roundHalfEven_mono {a b : ℚ} (h : a ≤ b) :
    roundHalfEven a ≤ roundHalfEven b := by
  have hf : ⌊a⌋ ≤ ⌊b⌋ := Int.floor_mono h
  dsimp only [roundHalfEven]
  rcases eq_or_lt_of_le hf with heq | hlt
  · rw [← heq]
    split_ifs <;> first | omega | (exfalso; linarith)
  · split_ifs <;> omega

lemma round4_mono {a b : ℚ} (h : a ≤ b) : round4 a ≤ round4 b := by
  dsimp only [round4]
  have h1 : a * 10000 ≤ b * 10000 := by linarith
  have h3 : ((roundHalfEven (a * 10000) : ℚ)) ≤ (roundHalfEven (b * 10000) : ℚ) := by
    exact_mod_cast roundHalfEven_mono h1
  linarith

/-- C6: holding `delta_pct` and the priority fixed, the impact score is
non-decreasing in |delta|; holding delta and `delta_pct` fixed, a lower
priority index (higher priority) gives a greater-or-equal score; both for
any positive metric total and priority index below it. -/
theorem compute_impact_score_monotone :
    (∀ (d1 d2 dp : ℚ) (pr t : ℕ), pr < t → |d1| ≤ |d2| →
      compute_impact_score d1 dp pr t ≤ compute_impact_score d2 dp pr t) ∧
    (∀ (d dp : ℚ) (pr1 pr2 t : ℕ), pr1 ≤ pr2 → pr2 < t →
      compute_impact_score d dp pr2 t ≤ compute_impact_score d dp pr1 t) := by
  have hpf : ∀ dp : ℚ, 0 ≤ min |dp| 200 / 200 := by
    intro dp
    have h0 : (0:ℚ) ≤ min |dp| 200 := le_min (abs_nonneg dp) (by norm_num)
    exact div_nonneg h0 (by norm_num)
  constructor
  · intro d1 d2 dp pr t hprt h12
    dsimp only [compute_impact_score]
    apply round4_mono
    have hA : (0:ℚ) ≤ 1 + min |dp| 200 / 200 := by linarith [hpf dp]
    have ht : (0:ℚ) < (t:ℚ) := by
      exact_mod_cast lt_of_le_of_lt (Nat.zero_le pr) hprt
    have hpr : (pr:ℚ) ≤ (t:ℚ) := by exact_mod_cast le_of_lt hprt
    have hB : (0:ℚ) ≤ 1 + ((t:ℚ) - (pr:ℚ)) / (t:ℚ) := by
      have := div_nonneg (by linarith : (0:ℚ) ≤ (t:ℚ) - (pr:ℚ)) (le_of_lt ht)
      linarith
    exact mul_le_mul_of_nonneg_right (mul_le_mul_of_nonneg_right h12 hA) hB
  · intro d dp pr1 pr2 t h12 hprt
    dsimp only [compute_impact_score]
    apply round4_mono
    have hA : (0:ℚ) ≤ 1 + min |dp| 200 / 200 := by linarith [hpf dp]
    have ht : (0:ℚ) < (t:ℚ) := by
      exact_mod_cast lt_of_le_of_lt (Nat.zero_le pr2) hprt
    have hd : (0:ℚ) ≤ |d| * (1 + min |dp| 200 / 200) :=
      mul_nonneg (abs_nonneg d) hA
    have hnum : (t:ℚ) - (pr2:ℚ) ≤ (t:ℚ) - (pr1:ℚ) := by
      have : (pr1:ℚ) ≤ (pr2:ℚ) := by exact_mod_cast h12
      linarith
    have hB : 1 + ((t:ℚ) - (pr2:ℚ)) / (t:ℚ) ≤ 1 + ((t:ℚ) - (pr1:ℚ)) / (t:ℚ) := by
      have := (div_le_div_iff_of_pos_right ht).mpr hnum
      linarith
    exact mul_le_mul_of_nonneg_left hB hd

/-- Witness for C6 at concrete inputs. -/
theorem compute_impact_score_monotone_witness :
    compute_impact_score 1 0 0 1 ≤ compute_impact_score 2 0 0 1 ∧
    compute_impact_score 3 0 1 2 ≤ compute_impact_score 3 0 0 2 :=
  ⟨compute_impact_score_monotone.1 1 2 0 0 1 (by decide) (by norm_num),
   compute_impact_score_monotone.2 3 0 0 1 2 (by decide) (by decide)⟩

lemma foldl_addKey_mem (keys : List String) (acc : List String) (c : String) :
    c ∈ keys.foldl (fun acc k => if k ∉ acc then acc ++ [k] else acc) acc ↔
      c ∈ acc ∨ c ∈ keys := by
  induction keys generalizing acc with
  | nil => simp
  | cons k ks ih =>
    simp only [List.foldl_cons]
    split_ifs with h
    · rw [ih]
      simp only [List.mem_cons]
      constructor
      · tauto
      · rintro (hc | rfl | hc)
        · tauto
        · exact Or.inl h
        · tauto
    · rw [ih]
      simp only [List.mem_append, List.mem_singleton, List.mem_cons]
      tauto

lemma foldl_addKey_nodup (keys : List String) (acc : List String)
    (h : acc.Nodup) :
    (keys.foldl (fun acc k => if k ∉ acc then acc ++ [k] else acc) acc).Nodup := by
  induction keys generalizing acc with
  | nil => simpa
  | cons k ks ih =>
    simp only [List.foldl_cons]
    split_ifs with hk
    · exact ih _ h
    · refine ih _ (h.append (List.nodup_singleton k) ?_)
      intro a ha hb
      rw [List.mem_singleton] at hb
      subst hb
      exact hk ha

lemma build_columns_eq (sc : SourceConfig) :
    build_columns sc = (sc.join_key.getD []).foldl
      (fun acc k => if k ∉ acc then acc ++ [k] else acc)
      (if sc.date_col ≠ "" ∧ sc.date_col ∉ sc.dimensions ++ sc.metrics
        then (sc.dimensions ++ sc.metrics) ++ [sc.date_col]
        else sc.dimensions ++ sc.metrics) := by
  dsimp only [build_columns]
  have h1 : (if ¬ sc.dimensions.isEmpty then ([] : List String) ++ sc.dimensions else []) =
      sc.dimensions := by
    cases sc.dimensions <;> simp
  rw [h1]
  have h2 : (if ¬ sc.metrics.isEmpty then sc.dimensions ++ sc.metrics else sc.dimensions) =
      sc.dimensions ++ sc.metrics := by
    cases sc.metrics <;> simp
  rw [h2]
  cases sc.join_key with
  | none => rfl
  | some keys => rfl

/-- C3 counterexample: a column declared both as a dimension and as a metric
is selected twice — the synthesized column list is not deduplicated across
the dimension and metric lists. -/
theorem build_database_query_cex :
    build_database_query ⟨none, "t", "d", ["a"], ["a"], none⟩ =
      "SELECT \"a\", \"a\", \"d\" FROM \"t\"" ∧
    ¬ (build_columns ⟨none, "t", "d", ["a"], ["a"], none⟩).Nodup := by
  constructor
  · rfl
  · decide

/-- C3 amended: the synthesized query selects the declared dimension,
metric, date and join-key columns FROM the declared table (`SELECT *` when
none are declared); the date and join-key entries are deduplicated against
earlier entries, but the dimension and metric lists are concatenated as-is,
so a name declared in both appears twice; the list is duplicate-free
whenever the concatenation of dimensions and metrics is. -/
theorem build_database_query_spec (sc : SourceConfig) :
    (build_columns sc = [] →
      build_database_query sc = "SELECT * FROM " ++ quoteIdent sc.table) ∧
    (build_columns sc ≠ [] →
      build_database_query sc = "SELECT " ++
        String.intercalate ", " ((build_columns sc).map quoteIdent) ++
        " FROM " ++ quoteIdent sc.table) ∧
    (∀ c, c ∈ build_columns sc ↔ c ∈ sc.dimensions ∨ c ∈ sc.metrics ∨
      (c = sc.date_col ∧ sc.date_col ≠ "") ∨ c ∈ sc.join_key.getD []) ∧
    ((sc.dimensions ++ sc.metrics).Nodup → (build_columns sc).Nodup) := by
  refine ⟨?_, ?_, ?_, ?_⟩
  · intro h
    dsimp only [build_database_query]
    rw [h]
    rfl
  · intro h
    dsimp only [build_database_query]
    rw [if_pos (by simpa [List.isEmpty_iff] using h)]
  · intro c
    rw [build_columns_eq, foldl_addKey_mem]
    split_ifs with hdc
    · simp only [List.mem_append, List.mem_singleton]
      constructor
      · rintro ((⟨hc | hc⟩ | rfl) | hc)
        · tauto
        · tauto
        · tauto
        · tauto
      · rintro (hc | hc | ⟨rfl, hne⟩ | hc)
        · tauto
        · tauto
        · tauto
        · tauto
    · push_neg at hdc
      simp only [List.mem_append] at hdc ⊢
      constructor
      · tauto
      · rintro (hc | hc | ⟨rfl, hne⟩ | hc)
        · tauto
        · tauto
        · exact Or.inl (hdc hne)
        · tauto
  · intro h
    rw [build_columns_eq]
    apply foldl_addKey_nodup
    split_ifs with hdc
    · refine h.append (List.nodup_singleton _) ?_
      intro a ha hb
      rw [List.mem_singleton] at hb
      subst hb
      exact hdc.2 ha
    · exact h

/-- Witness for C3 amended at a duplicate-free declaration. -/
theorem build_database_query_spec_witness :
    build_database_query ⟨none, "t", "d", ["a"], ["b"], none⟩ =
      "SELECT \"a\", \"b\", \"d\" FROM \"t\"" ∧
    (build_columns ⟨none, "t", "d", ["a"], ["b"], none⟩).Nodup := by
  have h := build_database_query_spec ⟨none, "t", "d", ["a"], ["b"], none⟩
  refine ⟨?_, h.2.2.2 (by decide)⟩
  have h2 := h.2.1 (by decide)
  rw [h2]
  rfl

/-- C8: the period splitter returns two sub-tables; a row with date value d
belongs to the current sub-table iff d lies in the inclusive interval
[current_start, current_end] and to the previous sub-table iff d lies in
[previous_start, previous_end]; a row in neither window is in neither
sub-table, and no error is possible. -/
theorem split_by_period_spec (df : Table) (date_col : String)
    (current_start current_end previous_start previous_end : ℤ)
    (r : List Cell) (hr : r ∈ df.rows) (d : ℤ)
    (hd : cellAt df.header r date_col = Cell.date d) :
    (r ∈ (split_by_period df date_col current_start current_end
        previous_start previous_end).1.rows ↔
      current_start ≤ d ∧ d ≤ current_end) ∧
    (r ∈ (split_by_period df date_col current_start current_end
        previous_start previous_end).2.rows ↔
      previous_start ≤ d ∧ d ≤ previous_end) := by
  constructor <;>
    simp [split_by_period, List.mem_filter, rowDateIn, hd, hr,
      decide_eq_true_eq]

/-- Witness for C8 on a concrete three-row table: the row dated 5 is kept by
the current window [1, 6] and dropped by the previous window [7, 15]. -/
theorem split_by_period_spec_witness :
    ([Cell.date 5, Cell.num 1] ∈
      (split_by_period ⟨["dt", "x"],
        [[Cell.date 5, Cell.num 1], [Cell.date 10, Cell.num 2],
         [Cell.date 20, Cell.num 3]]⟩ "dt" 1 6 7 15).1.rows) ∧
    ([Cell.date 5, Cell.num 1] ∉
      (split_by_period ⟨["dt", "x"],
        [[Cell.date 5, Cell.num 1], [Cell.date 10, Cell.num 2],
         [Cell.date 20, Cell.num 3]]⟩ "dt" 1 6 7 15).2.rows) := by
  have h := split_by_period_spec ⟨["dt", "x"],
      [[Cell.date 5, Cell.num 1], [Cell.date 10, Cell.num 2],
       [Cell.date 20, Cell.num 3]]⟩ "dt" 1 6 7 15
    [Cell.date 5, Cell.num 1] (by decide) 5 (by rfl)
  refine ⟨h.1.mpr (by decide), fun hm => ?_⟩
  have h2 := h.2.mp hm
  omega

/-- C1 counterexample: with the empty dimension list and a request whose
metric names are all absent from the table, aggregation returns an empty
frame instead of failing — the no-valid-metrics check lives only in the
grouped branch. -/
theorem aggregate_by_dimensions_cex :
    aggregate_by_dimensions ⟨["a"], [[Cell.num 1]]⟩ [] ["x"] =
      Except.ok ⟨[], []⟩ := rfl

/-- C1 amended: when the dimension list is non-empty, every dimension is
present and no requested metric exists, aggregation fails with
noValidMetrics; with the empty dimension list it never fails: if at least
one requested metric is present it returns exactly one row holding the
whole-table sum of every present requested metric, and if none is present
it returns an empty, column-less frame. -/
theorem aggregate_by_dimensions_spec (df : Table)
    (dimensions metrics : List String) :
    (dimensions ≠ [] → (∀ d ∈ dimensions, d ∈ df.header) →
      (∀ m ∈ metrics, m ∉ df.header) →
      aggregate_by_dimensions df dimensions metrics =
        Except.error AggError.noValidMetrics) ∧
    ((∃ m ∈ metrics, m ∈ df.header) →
      aggregate_by_dimensions df [] metrics =
        Except.ok ⟨metrics.filter (fun m => decide (m ∈ df.header)),
          [(metrics.filter (fun m => decide (m ∈ df.header))).map
            (fun m => Cell.num (df.colSum m))]⟩) ∧
    ((∀ m ∈ metrics, m ∉ df.header) →
      aggregate_by_dimensions df [] metrics = Except.ok ⟨[], []⟩) := by
  refine ⟨?_, ?_, ?_⟩
  · intro hne hdims hmets
    have h1 : dimensions.isEmpty = false := by
      cases dimensions with
      | nil => exact absurd rfl hne
      | cons a l => rfl
    have h2 : dimensions.filter (fun d => decide (d ∉ df.header)) = [] :=
      List.filter_eq_nil_iff.mpr (fun d hd => by simp [hdims d hd])
    have h3 : metrics.filter (fun m => decide (m ∈ df.header)) = [] :=
      List.filter_eq_nil_iff.mpr (fun m hm => by simp [hmets m hm])
    simp only [aggregate_by_dimensions, h1, h2, h3, Bool.false_eq_true,
      if_false, List.isEmpty_nil, not_true_eq_false, List.isEmpty_cons,
      if_true]
  · rintro ⟨m, hm, hmem⟩
    rcases hfil : metrics.filter (fun m => decide (m ∈ df.header)) with _ | ⟨v, vs⟩
    · exact absurd (of_decide_eq_true (by simpa using List.filter_eq_nil_iff.mp hfil m hm))
        (by simp [hmem])
    · simp [aggregate_by_dimensions, hfil]
  · intro hmets
    have h3 : metrics.filter (fun m => decide (m ∈ df.header)) = [] :=
      List.filter_eq_nil_iff.mpr (fun m hm => by simp [hmets m hm])
    simp [aggregate_by_dimensions, h3]

/-- Witness for C1 amended: sums over a two-row table with one present and
one absent requested metric, and the error on a grouped request with no
valid metric. -/
theorem aggregate_by_dimensions_spec_witness :
    aggregate_by_dimensions ⟨["x"], [[Cell.num 2], [Cell.num 3]]⟩ [] ["x", "y"] =
      Except.ok ⟨["x"], [[Cell.num 5]]⟩ ∧
    aggregate_by_dimensions ⟨["d", "x"], [[Cell.str "u", Cell.num 2]]⟩ ["d"] ["zz"] =
      Except.error AggError.noValidMetrics := by
  constructor
  · have h := (aggregate_by_dimensions_spec ⟨["x"], [[Cell.num 2], [Cell.num 3]]⟩
      [] ["x", "y"]).2.1 ⟨"x", by decide, by decide⟩
    rw [h]
    simp only [Table.colSum, Table.colCells, cellAt, List.indexOf_cons_self]
    norm_num [Cell.toQ]
    decide
  · exact (aggregate_by_dimensions_spec ⟨["d", "x"], [[Cell.str "u", Cell.num 2]]⟩
      ["d"] ["zz"]).1 (by decide) (by decide) (by decide)

lemma getD_append_self (r : List Cell) (w : Cell) :
    (r ++ [w]).getD r.length Cell.null = w := by
  induction r with
  | nil => rfl
  | cons x xs ih => simp [List.getD]

lemma getD_set_self (r : List Cell) (i : ℕ) (w : Cell) (h : i < r.length) :
    (r.set i w).getD i Cell.null = w := by
  induction r generalizing i with
  | nil => simp at h
  | cons x xs ih =>
    cases i with
    | zero => rfl
    | succ i => simpa [List.getD] using ih i (by simpa using h)

lemma computeCells_sound (op : Char) (i1 i2 : ℕ) (rows : List (List Cell))
    (h : ∀ r ∈ rows, ∃ a b : ℚ, r.getD i1 Cell.null = Cell.num a ∧
      r.getD i2 Cell.null = Cell.num b) :
    ∃ qs, computeCells op i1 i2 rows = some qs := by
  induction rows with
  | nil => exact ⟨[], rfl⟩
  | cons r rs ih =>
    obtain ⟨a, b, ha, hb⟩ := h r (List.mem_cons_self r rs)
    obtain ⟨qs, hqs⟩ := ih (fun r2 hr2 => h r2 (List.mem_cons_of_mem r hr2))
    refine ⟨applyOp op a b :: qs, ?_⟩
    simp only [computeCells]
    rw [ha, hb, hqs]
    rfl

lemma computeCells_get (op : Char) (i1 i2 : ℕ) (rows : List (List Cell)) :
    ∀ (qs : List ℚ), computeCells op i1 i2 rows = some qs →
      ∀ (j : ℕ) (r : List Cell), rows[j]? = some r →
      ∀ a b : ℚ, r.getD i1 Cell.null = Cell.num a →
        r.getD i2 Cell.null = Cell.num b →
        qs[j]? = some (applyOp op a b) := by
  induction rows with
  | nil =>
    intro qs _ j r hr
    simp at hr
  | cons r0 rs ih =>
    intro qs h j r hr a b ha hb
    rw [computeCells] at h
    rcases hc1 : Cell.castF (r0.getD i1 Cell.null) with _ | a0 <;> rw [hc1] at h
    · simp at h
    rcases hc2 : Cell.castF (r0.getD i2 Cell.null) with _ | b0 <;> rw [hc2] at h
    · simp at h
    rcases hc3 : computeCells op i1 i2 rs with _ | qs0 <;> rw [hc3] at h
    · simp at h
    simp only [Option.some_bind, Option.map_some'] at h
    rcases Option.some.inj h with rfl
    cases j with
    | zero =>
      have hr0 : r0 = r := by simpa using hr
      subst hr0
      rw [ha] at hc1
      rw [hb] at hc2
      simp [Cell.castF] at hc1 hc2
      simp [hc1, hc2]
    | succ j =>
      rw [List.getElem?_cons_succ]
      exact ih qs0 hc3 j r (by simpa using hr) a b ha hb

lemma appendCol_get (n : ℕ) (rows : List (List Cell)) :
    ∀ (vals : List Cell), (∀ r ∈ rows, r.length = n) →
      ∀ (j : ℕ) (v : Cell), vals[j]? = some v → j < rows.length →
      (((rows.zip vals).map (fun rv => rv.1 ++ [rv.2])).map
        (fun r2 => r2.getD n Cell.null))[j]? = some v := by
  induction rows with
  | nil =>
    intro vals _ j v _ hj
    simp at hj
  | cons r rs ih =>
    intro vals hlen j v hv hj
    cases vals with
    | nil => simp at hv
    | cons w ws =>
      cases j with
      | zero =>
        have hw : w = v := by simpa using hv
        subst hw
        have hr : r.length = n := hlen r (List.mem_cons_self r rs)
        simp only [List.zip_cons_cons, List.map_cons, List.getElem?_cons_zero]
        rw [← hr, getD_append_self]
      | succ j =>
        simp only [List.zip_cons_cons, List.map_cons, List.getElem?_cons_succ]
        exact ih ws (fun r2 h2 => hlen r2 (List.mem_cons_of_mem r h2)) j v
          (by simpa using hv) (by simpa using hj)

lemma setCol_get (i : ℕ) (rows : List (List Cell)) :
    ∀ (vals : List Cell), (∀ r ∈ rows, i < r.length) →
      ∀ (j : ℕ) (v : Cell), vals[j]? = some v → j < rows.length →
      (((rows.zip vals).map (fun rv => rv.1.set i rv.2)).map
        (fun r2 => r2.getD i Cell.null))[j]? = some v := by
  induction rows with
  | nil =>
    intro vals _ j v _ hj
    simp at hj
  | cons r rs ih =>
    intro vals hlen j v hv hj
    cases vals with
    | nil => simp at hv
    | cons w ws =>
      cases j with
      | zero =>
        have hw : w = v := by simpa using hv
        subst hw
        simp only [List.zip_cons_cons, List.map_cons, List.getElem?_cons_zero]
        rw [getD_set_self r i w (hlen r (List.mem_cons_self r rs))]
      | succ j =>
        simp only [List.zip_cons_cons, List.map_cons, List.getElem?_cons_succ]
        exact ih ws (fun r2 h2 => hlen r2 (List.mem_cons_of_mem r h2)) j v
          (by simpa using hv) (by simpa using hj)

/-- C4: on a division formula, when both operand columns exist and hold
numeric cells, derivation succeeds (no error) and the new column holds, for
each row, 0.0 where the divisor cell is exactly 0 and the exact quotient of
the two operands elsewhere. -/
theorem compute_derived_metric_div_spec (df : Table)
    (name formula o1 o2 : String) (hwf : df.WF)
    (hp : parse_formula formula = some (o1, '/', o2))
    (h1 : o1 ∈ df.header) (h2 : o2 ∈ df.header)
    (hnum : ∀ r ∈ df.rows, ∃ a b : ℚ,
      r.getD (df.header.indexOf o1) Cell.null = Cell.num a ∧
      r.getD (df.header.indexOf o2) Cell.null = Cell.num b) :
    ∃ df2, compute_derived_metric df name formula = Except.ok df2 ∧
      ∀ (j : ℕ) (r : List Cell), df.rows[j]? = some r →
      ∀ a b : ℚ, r.getD (df.header.indexOf o1) Cell.null = Cell.num a →
        r.getD (df.header.indexOf o2) Cell.null = Cell.num b →
        (df2.colCells name)[j]? =
          some (Cell.num (if b = 0 then 0 else a / b)) := by
  obtain ⟨qs, hqs⟩ := computeCells_sound '/' (df.header.indexOf o1)
    (df.header.indexOf o2) df.rows hnum
  refine ⟨df.withColumn name (qs.map Cell.num), ?_, ?_⟩
  · simp [compute_derived_metric, hp, h1, h2, hqs]
  · intro j r hr a b ha hb
    have hq : qs[j]? = some (applyOp '/' a b) :=
      computeCells_get '/' _ _ df.rows qs hqs j r hr a b ha hb
    have hv : (qs.map Cell.num)[j]? = some (Cell.num (applyOp '/' a b)) := by
      rw [List.getElem?_map, hq]
      rfl
    have hj : j < df.rows.length := (List.getElem?_eq_some_iff.mp hr).1
    rw [applyOp_div] at hv
    unfold Table.withColumn
    by_cases hmem : name ∈ df.header
    · rw [if_pos hmem]
      have hidx : df.header.indexOf name < df.header.length :=
        List.indexOf_lt_length.mpr hmem
      show ((((df.rows.zip (qs.map Cell.num)).map
        (fun rv => rv.1.set (df.header.indexOf name) rv.2)).map
        (fun r2 => r2.getD (df.header.indexOf name) Cell.null)))[j]? = _
      exact setCol_get (df.header.indexOf name) df.rows (qs.map Cell.num)
        (fun r2 h2 => by rw [hwf r2 h2]; exact hidx) j _ hv hj
    · rw [if_neg hmem]
      have hidx : (df.header ++ [name]).indexOf name = df.header.length := by
        rw [List.indexOf_append_of_not_mem hmem, List.indexOf_cons_self]
        omega
      show ((((df.rows.zip (qs.map Cell.num)).map
        (fun rv => rv.1 ++ [rv.2])).map
        (fun r2 => r2.getD ((df.header ++ [name]).indexOf name) Cell.null)))[j]? = _
      rw [hidx]
      exact appendCol_get df.header.length df.rows (qs.map Cell.num)
        (fun r2 h2 => hwf r2 h2) j _ hv hj

/-- Witness for C4: `ctr = clicks / impressions` on a row with zero
impressions yields a 0 cell, not an error. -/
theorem compute_derived_metric_div_spec_witness :
    (compute_derived_metric ⟨["clicks", "impressions"],
      [[Cell.num 10, Cell.num 0], [Cell.num 6, Cell.num 3]]⟩
      "ctr" "clicks / impressions").toOption.map
        (fun t => (t.colCells "ctr")[0]?) = some (some (Cell.num 0)) := by
  obtain ⟨df2, hok, hcell⟩ := compute_derived_metric_div_spec
    ⟨["clicks", "impressions"],
      [[Cell.num 10, Cell.num 0], [Cell.num 6, Cell.num 3]]⟩
    "ctr" "clicks / impressions" "clicks" "impressions"
    (by decide) (by decide) (by decide) (by decide)
    (by
      intro r hr
      rcases List.mem_cons.mp hr with h | h
      · exact ⟨10, 0, by subst h; rfl, by subst h; rfl⟩
      · rcases List.mem_cons.mp h with h2 | h2
        · exact ⟨6, 3, by subst h2; rfl, by subst h2; rfl⟩
        · cases h2)
  have h0 := hcell 0 [Cell.num 10, Cell.num 0] (by rfl) 10 0 (by rfl) (by rfl)
  rw [if_pos rfl] at h0
  rw [hok]
  simp only [Except.toOption, Option.map_some']
  rw [h0]
